import Mathlib

/-!
Verification of the tezcat vector indexing and retrieval engine.

This file gives a shallow embedding of the core data model and operations of
the repository and proves properties of them:

* `VectorUtils` (embedding_service): hash-function generation, LSH hash
  vectors, Hamming distance, L2 normalization and int8 quantization.
* `SearchService` (search_service.ts): cosine similarity over quantized
  vectors and Reciprocal Rank Fusion for hybrid search.
* `SqlJsDatabaseAdapter` (database adapter): the persisted LSH store,
  `generateVectorIndex` and `getSimilarVectors`, modelled as explicit state
  passing over a `Store` value, with thrown JS errors modelled by
  `Except`/`Option String` results.

Modelling conventions: JS numbers (doubles and Float32 projection entries)
are modelled as exact rationals where the code only compares and adds them,
and as real numbers where square roots occur; Int8Array contents are modelled
as integers; string ids are modelled as natural-number ids; bucket signature
strings (bits joined with an empty separator) are modelled as the bit lists
themselves, since joining and re-splitting single-character bits is a
bijection.  `Array.prototype.sort` with a numeric comparator is a stable
sort, so it is modelled by the stable `List.insertionSort`.
-/

namespace Tezcat

instance {ε α : Type _} [DecidableEq ε] [DecidableEq α] :
    DecidableEq (Except ε α) := fun a b =>
  match a, b with
  | .error e, .error f =>
    if h : e = f then .isTrue (congrArg Except.error h)
    else .isFalse fun c => h (Except.error.inj c)
  | .ok x, .ok y =>
    if h : x = y then .isTrue (congrArg Except.ok h)
    else .isFalse fun c => h (Except.ok.inj c)
  | .error _, .ok _ => .isFalse Except.noConfusion
  | .ok _, .error _ => .isFalse Except.noConfusion

theorem except_ok_bind {ε α β : Type _} (a : α) (f : α → Except ε β) :
    (do let x ← (Except.ok a : Except ε α); f x) = f a := rfl

/-- One LSH hash function: owning config id, position index, and the random
projection vector (a `Float32Array` in the source, modelled as exact
rationals).  Row ids and timestamps carry no behaviour and are omitted. -/
structure LSHHashFunction where
  configId : ℕ
  hashIndex : ℕ
  projectionMatrix : List ℚ
  deriving DecidableEq, Repr

/-- `VectorUtils.dotProduct`: dot product between an `Int8Array` vector and a
`Float32Array` projection matrix; throws when the lengths differ. -/
def dotProduct (vector : List ℤ) (projectionMatrix : List ℚ) : Except String ℚ :=
  if vector.length ≠ projectionMatrix.length then
    .error "Vectors must have the same length"
  else
    .ok (List.zipWith (fun (a : ℤ) (p : ℚ) => (a : ℚ) * p)
      vector projectionMatrix).sum

/-- The bit loop of `computeHashVector`: one bit per hash function
(`dot > 0` gives bit 1, else bit 0), a thrown dot-product error aborting
the loop. -/
def computeHashBits (vector : List ℤ) : List LSHHashFunction → Except String (List ℕ)
  | [] => .ok []
  | hashFunction :: rest => do
    let d ← dotProduct vector hashFunction.projectionMatrix
    let bits ← computeHashBits vector rest
    .ok ((if 0 < d then 1 else 0) :: bits)

/-- `VectorUtils.computeHashVector`: the LSH bucket signature of `vector`.
Throws when the vector does not have the expected dimension count or when no
hash functions are provided. -/
def computeHashVector (vector : List ℤ) (hashFunctions : List LSHHashFunction)
    (expectedDimensions : ℕ) : Except String (List ℕ) :=
  if vector.length ≠ expectedDimensions then
    .error "Input vector has unexpected dimensions"
  else if hashFunctions.length = 0 then
    .error "No hash functions provided"
  else
    computeHashBits vector hashFunctions

/-- `VectorUtils.hammingDistance`: number of differing positions; throws when
the lengths differ. -/
def hammingDistance (hash1 hash2 : List ℕ) : Except String ℕ :=
  if hash1.length ≠ hash2.length then
    .error "Hash vectors must have the same length"
  else
    .ok (List.zipWith (fun a b => if a ≠ b then 1 else 0) hash1 hash2).sum

/-- Fuel-based computation of `Math.ceil(Math.log2 m)` for natural `m`
(0 for `m ≤ 1`), using the recurrence of the ceiling base-2 logarithm.
Proved equal to `Nat.clog 2` and to `⌈Real.logb 2 m⌉` below. -/
def ceilLog2Go : ℕ → ℕ → ℕ
  | 0, _ => 0
  | fuel + 1, m => if 2 ≤ m then ceilLog2Go fuel ((m + 1) / 2) + 1 else 0

/-- The hash-function count chosen by `VectorUtils.createHashFunctions` and
`SqlJsDatabaseAdapter.generateVectorIndex`:
`Math.ceil(Math.log2(vectorCount))` in the source, in exact arithmetic. -/
def numHashFunctions (vectorCount : ℕ) : ℕ := ceilLog2Go vectorCount vectorCount

/-- `VectorUtils.createHashFunctions`: the chosen hash-function count
together with that many `(hashIndex, projectionMatrix)` pairs.  The random
Box-Muller draws are modelled by the oracle `proj`, which supplies the
projection vector for each index (the dimension argument is only consumed by
the random generator in the source). -/
def createHashFunctions (vectorCount : ℕ) (_vectorDimensions : ℕ)
    (proj : ℕ → List ℚ) : ℕ × List (ℕ × List ℚ) :=
  (numHashFunctions vectorCount,
    (List.range (numHashFunctions vectorCount)).map fun i => (i, proj i))

/-- The accumulation loop of `SearchService.calculateCosineSimilarity`: the
source uses one loop over `i < vecA.length` accumulating `a*b`, `a*a`, `b*b`;
this is that sum for one pair of operand lists. -/
def simDot (len : ℕ) (a b : List ℤ) : ℤ :=
  ∑ i ∈ Finset.range len, a.getD i 0 * b.getD i 0

/-- `SearchService.calculateCosineSimilarity`: throws on a length mismatch,
returns 0 when either operand has zero magnitude, and otherwise maps the
cosine from [-1, 1] to [0, 1] via `(cos + 1) / 2`. -/
noncomputable def calculateCosineSimilarity (vecA vecB : List ℤ) :
    Except String ℝ :=
  if vecA.length ≠ vecB.length then
    .error "Vector dimension mismatch"
  else if Real.sqrt (simDot vecA.length vecA vecA) *
      Real.sqrt (simDot vecA.length vecB vecB) = 0 then
    .ok 0
  else
    .ok (((simDot vecA.length vecA vecB : ℝ) /
      (Real.sqrt (simDot vecA.length vecA vecA) *
        Real.sqrt (simDot vecA.length vecB vecB)) + 1) / 2)

/-- JS `Math.round`: round half toward positive infinity. -/
noncomputable def jsRound (x : ℝ) : ℤ := ⌊x + 1 / 2⌋

/-- `VectorUtils.quantizeToInt8`: clamp each component to [-1, 1], scale by
127, round to the nearest integer. -/
noncomputable def quantizeToInt8 (normalizedVector : List ℝ) : List ℤ :=
  normalizedVector.map fun val => jsRound (max (-1) (min 1 val) * 127)

/-- `VectorUtils.l2Normalize`: divide by the magnitude, returning the input
unchanged when the magnitude is zero. -/
noncomputable def l2Normalize (vector : List ℝ) : List ℝ :=
  if Real.sqrt (vector.map fun v => v * v).sum = 0 then vector
  else vector.map fun v => v / Real.sqrt (vector.map fun w => w * w).sum

/-- `VectorUtils.processVector`: L2 normalize, then quantize to int8. -/
noncomputable def processVector (vector : List ℝ) : List ℤ :=
  quantizeToInt8 (l2Normalize vector)

/-! ### Reciprocal Rank Fusion (`SearchService.hybridSearch`)

Result items are represented by their fusion keys (`blockId || noteId` in the
source); a JS `Map` is modelled as an insertion-ordered association list with
overwrite-on-set, exactly the observable `Map` semantics. -/

/-- JS `Map.set`: overwrite in place when the key exists (keeping its
insertion position), append otherwise. -/
def mapSet (m : List (ℕ × ℕ)) (k v : ℕ) : List (ℕ × ℕ) :=
  if m.any fun e => e.1 == k then
    m.map fun e => if e.1 = k then (k, v) else e
  else m ++ [(k, v)]

/-- JS `Map.get`: value at the key, if present. -/
def mapGet (m : List (ℕ × ℕ)) (k : ℕ) : Option ℕ :=
  (m.find? fun e => decide (e.1 = k)).map (·.2)

/-- The `forEach` loop that builds `vectorRankMap` / `ftsRankMap`: each key
of the result list is set to its 1-based rank, later occurrences
overwriting earlier ones. -/
def buildRankMapFrom : ℕ → List ℕ → List (ℕ × ℕ) → List (ℕ × ℕ)
  | _, [], m => m
  | i, key :: rest, m => buildRankMapFrom (i + 1) rest (mapSet m key (i + 1))

/-- The rank map of a result list, keyed by fusion key. -/
def buildRankMap (l : List ℕ) : List (ℕ × ℕ) := buildRankMapFrom 0 l []

/-- Key insertion into `allResultsMap`: appended only when absent. -/
def insertKey (acc : List ℕ) (k : ℕ) : List ℕ :=
  if k ∈ acc then acc else acc ++ [k]

/-- The keys of `allResultsMap`: all vector-search keys in order, then any
full-text keys not already present. -/
def allKeys (vectorKeys ftsKeys : List ℕ) : List ℕ :=
  (vectorKeys ++ ftsKeys).foldl insertKey []

/-- The RRF score that `hybridSearch` computes for one key: the weighted
reciprocal of 60 plus the rank in each list, a list the key is absent from
contributing nothing. -/
def rrfScore (vectorKeys ftsKeys : List ℕ) (hybridWeight : ℚ) (key : ℕ) : ℚ :=
  (match mapGet (buildRankMap vectorKeys) key with
    | some r => hybridWeight * (1 / (60 + (r : ℚ)))
    | none => 0) +
  (match mapGet (buildRankMap ftsKeys) key with
    | some r => (1 - hybridWeight) * (1 / (60 + (r : ℚ)))
    | none => 0)

/-- The `rrfScores` map: every key of `allResultsMap` whose RRF score is
strictly positive, with its score. -/
def rrfScoresOf (vectorKeys ftsKeys : List ℕ) (hybridWeight : ℚ) :
    List (ℕ × ℚ) :=
  (allKeys vectorKeys ftsKeys).filterMap fun key =>
    if 0 < rrfScore vectorKeys ftsKeys hybridWeight key then
      some (key, rrfScore vectorKeys ftsKeys hybridWeight key)
    else none

/-- The destructuring default `hybridWeight = 0.5` of `hybridSearch`. -/
def hybridWeightOf (o : Option ℚ) : ℚ := o.getD (1 / 2)

instance : DecidableRel fun (a b : ℕ × ℚ) => b.2 ≤ a.2 :=
  fun a b => inferInstanceAs (Decidable (b.2 ≤ a.2))

/-- The tail of `hybridSearch` after both searches return: keep the scored
keys with score at least `minScore`, sort by score descending (stable), and
truncate to `topK`.  (The later note-path exclusion filter is independent of
the keys and scores and is not modelled.) -/
def hybridFuse (vectorKeys ftsKeys : List ℕ) (hybridWeight minScore : ℚ)
    (topK : ℕ) : List (ℕ × ℚ) :=
  (List.insertionSort (fun a b => b.2 ≤ a.2)
    ((rrfScoresOf vectorKeys ftsKeys hybridWeight).filter fun e =>
      minScore ≤ e.2)).take topK

/-! ### The persisted LSH store (`SqlJsDatabaseAdapter`) -/

/-- A row of the `vectors` table (only the columns the index reads). -/
structure StoredVector where
  id : ℕ
  vec : List ℤ
  deriving DecidableEq, Repr

/-- A row of `lsh_configs`. -/
structure LSHConfigRow where
  id : ℕ
  vector_count : ℕ
  vector_dimensions : ℕ
  num_hash_functions : ℕ
  deriving DecidableEq, Repr

/-- A row of `lsh_buckets`: one `(config, signature, vector)` entry. -/
structure BucketRow where
  configId : ℕ
  bucketHash : List ℕ
  vectorId : ℕ
  deriving DecidableEq, Repr

/-- The persisted store: the `vectors` table and the three LSH tables, each
as its list of rows in insertion order. -/
structure Store where
  vectors : List StoredVector
  configs : List LSHConfigRow
  hashFns : List LSHHashFunction
  buckets : List BucketRow
  deriving DecidableEq, Repr

/-- `getLSHConfig`: `SELECT * FROM lsh_configs LIMIT 1`. -/
def getLSHConfig (s : Store) : Option LSHConfigRow := s.configs.head?

instance : DecidableRel fun (a b : LSHHashFunction) => a.hashIndex ≤ b.hashIndex :=
  fun a b => inferInstanceAs (Decidable (a.hashIndex ≤ b.hashIndex))

/-- `getLSHHashFunctions`: the hash functions of one config, ordered by
`hash_index`. -/
def getLSHHashFunctions (s : Store) (configId : ℕ) : List LSHHashFunction :=
  List.insertionSort (fun a b => a.hashIndex ≤ b.hashIndex)
    (s.hashFns.filter fun r => r.configId == configId)

/-- `clearLSHTables`: `DELETE FROM` each of the three LSH tables. -/
def clearLSHTables (s : Store) : Store :=
  { s with buckets := [], hashFns := [], configs := [] }

/-- The bucket-population loop of `generateVectorIndex`: computes each
vector's signature and inserts one bucket row; the first thrown error
aborts the loop, keeping the rows written so far. -/
def populateBuckets (configId : ℕ) (stored : List LSHHashFunction)
    (vectorDimensions : ℕ) :
    List StoredVector → Store → Option String × Store
  | [], s => (none, s)
  | v :: rest, s =>
    match computeHashVector v.vec stored vectorDimensions with
    | .error e => (some e, s)
    | .ok h =>
      populateBuckets configId stored vectorDimensions rest
        { s with buckets := s.buckets ++ [⟨configId, h, v.id⟩] }

/-- `SqlJsDatabaseAdapter.generateVectorIndex`: counts the stored vectors
(no-op when none), clears the prior LSH tables, inserts the fresh config and
its hash functions, and populates the buckets.  The result pairs the thrown
error, if any, with the store as left behind (the source mutates the
database in place and rethrows). -/
def generateVectorIndex (s : Store) (vectorDimensions : ℕ)
    (proj : ℕ → List ℚ) (newConfigId : ℕ) : Option String × Store :=
  if s.vectors.length = 0 then (none, s)
  else
    let vectorCount := s.vectors.length
    let newConfig : LSHConfigRow :=
      ⟨newConfigId, vectorCount, vectorDimensions, numHashFunctions vectorCount⟩
    let s1 := clearLSHTables s
    let s2 := { s1 with configs := s1.configs ++ [newConfig] }
    let hfs := (createHashFunctions vectorCount vectorDimensions proj).2
    let newRows : List LSHHashFunction := hfs.map fun p => ⟨newConfigId, p.1, p.2⟩
    let s3 := { s2 with hashFns := s2.hashFns ++ newRows }
    populateBuckets newConfigId (getLSHHashFunctions s3 newConfigId)
      vectorDimensions s.vectors s3

/-- One step of the grouping loop of `getAllLSHBuckets`: append the row's
vector id to its signature's group, or open a new group. -/
def groupStep (acc : List (List ℕ × List ℕ)) (row : BucketRow) :
    List (List ℕ × List ℕ) :=
  if acc.any fun g => g.1 == row.bucketHash then
    acc.map fun g =>
      if g.1 = row.bucketHash then (g.1, g.2 ++ [row.vectorId]) else g
  else acc ++ [(row.bucketHash, [row.vectorId])]

/-- The grouping loop of `getAllLSHBuckets`: bucket rows of one config,
grouped by signature into `(bucketHash, vectorIds)` pairs, first-occurrence
order (JS `Map` iteration order). -/
def groupBuckets (rows : List BucketRow) : List (List ℕ × List ℕ) :=
  rows.foldl groupStep []

/-- `getAllLSHBuckets`: all buckets of one config with their vector ids. -/
def getAllLSHBuckets (s : Store) (configId : ℕ) : List (List ℕ × List ℕ) :=
  groupBuckets (s.buckets.filter fun r => r.configId == configId)

/-- The distance-annotation step of `getSimilarVectors`: each bucket paired
with its Hamming distance to the query signature (a thrown length-mismatch
error propagates). -/
def computeBucketDistances (queryHash : List ℕ) :
    List (List ℕ × List ℕ) → Except String (List ((List ℕ × List ℕ) × ℕ))
  | [] => .ok []
  | b :: rest => do
    let d ← hammingDistance queryHash b.1
    let rest2 ← computeBucketDistances queryHash rest
    .ok ((b, d) :: rest2)

instance : DecidableRel fun (a b : (List ℕ × List ℕ) × ℕ) => a.2 ≤ b.2 :=
  fun a b => inferInstanceAs (Decidable (a.2 ≤ b.2))

/-- `bucketDistances.sort((a, b) => a.hammingDistance - b.hammingDistance)`:
stable ascending sort by distance. -/
def sortByDistance (l : List ((List ℕ × List ℕ) × ℕ)) :
    List ((List ℕ × List ℕ) × ℕ) :=
  List.insertionSort (fun a b => a.2 ≤ b.2) l

/-- `bucket.vectorIds.forEach(id => candidateVectorIds.add(id))`: add each
id to the deduplicated candidate set (modelled as a duplicate-free list in
insertion order). -/
def addAll (acc : List ℕ) (ids : List ℕ) : List ℕ :=
  ids.foldl (fun a i => if i ∈ a then a else a ++ [i]) acc

/-- The candidate-collection loop of `getSimilarVectors`: add every id of
each bucket in order, breaking once the candidate set has reached the
target size. -/
def collectCandidates (targetCandidates : ℕ) :
    List ((List ℕ × List ℕ) × ℕ) → List ℕ → List ℕ
  | [], acc => acc
  | b :: rest, acc =>
    let acc2 := addAll acc b.1.2
    if targetCandidates ≤ acc2.length then acc2
    else collectCandidates targetCandidates rest acc2

/-- `SqlJsDatabaseAdapter.getSimilarVectors`: requires an LSH config, hashes
the query, ranks all buckets by Hamming distance, collects candidate ids
from the nearest buckets until `limit * 10` candidates are gathered, and
fetches the matching vector rows.  The source dereferences
`bucketDistances[0]` for its debug log, which throws a `TypeError` when no
buckets exist; that read is modelled by the match on `sorted`. -/
def getSimilarVectors (s : Store) (queryVector : List ℤ) (limit : ℕ) :
    Except String (List StoredVector) :=
  match getLSHConfig s with
  | none => .error "Vector index not available - LSH configuration missing"
  | some lshConfig => do
    let hashFunctions := getLSHHashFunctions s lshConfig.id
    let queryHash ← computeHashVector queryVector hashFunctions
      lshConfig.vector_dimensions
    let bucketDistances ← computeBucketDistances queryHash
      (getAllLSHBuckets s lshConfig.id)
    let sorted := sortByDistance bucketDistances
    let candidateVectorIds := collectCandidates (limit * 10) sorted []
    match sorted with
    | [] => .error "TypeError: no bucket at index 0"
    | _ :: _ => .ok (s.vectors.filter fun v => candidateVectorIds.contains v.id)

/-! ## Theorems -/

theorem ceilLog2Go_eq_clog (fuel : ℕ) :
    ∀ n : ℕ, n ≤ fuel → ceilLog2Go fuel n = Nat.clog 2 n := by
  induction fuel with
  | zero =>
    intro n hn
    interval_cases n
    simp [ceilLog2Go]
  | succ fuel ih =>
    intro n hn
    rw [ceilLog2Go]
    by_cases h2 : 2 ≤ n
    · rw [if_pos h2, ih ((n + 1) / 2) (by omega),
        Nat.clog_of_two_le (by norm_num) h2]
      norm_num
    · rw [if_neg h2, Nat.clog_of_right_le_one (by omega)]

theorem numHashFunctions_eq_clog (n : ℕ) : numHashFunctions n = Nat.clog 2 n :=
  ceilLog2Go_eq_clog n n le_rfl

/-- Claim C6: the number of LSH hash functions chosen for a corpus of `n`
vectors equals `⌈log2 n⌉` for every `n ≥ 2`, and equals 0 for every
`n ≤ 1`. -/
theorem hashCount_formula (n : ℕ) :
    (2 ≤ n → (numHashFunctions n : ℤ) = ⌈Real.logb 2 (n : ℝ)⌉) ∧
    (n ≤ 1 → numHashFunctions n = 0) := by
  constructor
  · intro _
    rw [numHashFunctions_eq_clog, show (2 : ℝ) = ((2 : ℕ) : ℝ) by norm_num,
      Real.ceil_logb_natCast (Nat.cast_nonneg n), Int.clog_natCast]
  · intro h
    rw [numHashFunctions_eq_clog, Nat.clog_of_right_le_one h]

/-- Witness for C6 at the corpus sizes 10 and 1 (the spec's own end-to-end
scenario has `ceil(log2 10) = 4`). -/
theorem hashCount_formula_witness :
    (2 ≤ 10 ∧ (numHashFunctions 10 : ℤ) = ⌈Real.logb 2 ((10 : ℕ) : ℝ)⌉ ∧
      numHashFunctions 10 = 4) ∧
    (1 ≤ 1 ∧ numHashFunctions 1 = 0) :=
  ⟨⟨by norm_num, (hashCount_formula 10).1 (by norm_num), by decide⟩,
    ⟨le_rfl, (hashCount_formula 1).2 le_rfl⟩⟩

theorem jsRound_clamped_range (x : ℝ) :
    -127 ≤ jsRound (max (-1) (min 1 x) * 127) ∧
      jsRound (max (-1) (min 1 x) * 127) ≤ 127 := by
  have h1 : (-1 : ℝ) ≤ max (-1) (min 1 x) := le_max_left _ _
  have h2 : max (-1) (min 1 x) ≤ 1 := max_le (by norm_num) (min_le_left _ _)
  constructor
  · rw [jsRound, Int.le_floor]
    push_cast
    nlinarith
  · rw [jsRound]
    have hlt : ⌊max (-1) (min 1 x) * 127 + 1 / 2⌋ < 128 :=
      Int.floor_lt.2 (by push_cast; nlinarith)
    omega

/-- Claim C10: every component of a quantized vector produced by
`quantizeToInt8` (and hence by `processVector`, the path all stored vectors
take) lies in [-127, 127]; in particular the int8 value -128 never occurs,
so the component-wise negation of any stored quantized vector is itself
representable in int8. -/
theorem quantize_range (v : List ℝ) :
    (∀ c ∈ quantizeToInt8 v, -127 ≤ c ∧ c ≤ 127) ∧
    (∀ c ∈ processVector v, -127 ≤ c ∧ c ≤ 127) := by
  have key : ∀ w : List ℝ, ∀ c ∈ quantizeToInt8 w, -127 ≤ c ∧ c ≤ 127 := by
    intro w c hc
    rw [quantizeToInt8, List.mem_map] at hc
    obtain ⟨x, -, rfl⟩ := hc
    exact jsRound_clamped_range x
  exact ⟨key v, key (l2Normalize v)⟩

/-- Witness for C10: quantizing the out-of-range component 2 yields 127,
inside [-127, 127]. -/
theorem quantize_range_witness :
    (127 : ℤ) ∈ quantizeToInt8 [2] ∧ -127 ≤ (127 : ℤ) ∧ (127 : ℤ) ≤ 127 := by
  have hm : (127 : ℤ) ∈ quantizeToInt8 [2] := by
    have : quantizeToInt8 [2] = [127] := by
      rw [quantizeToInt8]
      norm_num [jsRound]
    rw [this]
    exact List.mem_singleton.2 rfl
  exact ⟨hm, ((quantize_range [2]).1 127 hm).1, ((quantize_range [2]).1 127 hm).2⟩

/-! ### Cosine similarity (claims C5 and C8) -/

theorem simDot_self_nonneg (len : ℕ) (a : List ℤ) : 0 ≤ simDot len a a :=
  Finset.sum_nonneg fun _ _ => mul_self_nonneg _

theorem cauchy_schwarz_simDot (len : ℕ) (a b : List ℤ) :
    (simDot len a b : ℝ) ^ 2 ≤ (simDot len a a : ℝ) * (simDot len b b : ℝ) := by
  have h := Finset.sum_mul_sq_le_sq_mul_sq (Finset.range len)
    (fun i => (a.getD i 0 : ℝ)) (fun i => (b.getD i 0 : ℝ))
  have eab : (simDot len a b : ℝ) =
      ∑ i ∈ Finset.range len, (a.getD i 0 : ℝ) * (b.getD i 0 : ℝ) := by
    rw [simDot]; push_cast; rfl
  have ea : (simDot len a a : ℝ) =
      ∑ i ∈ Finset.range len, (a.getD i 0 : ℝ) ^ 2 := by
    rw [simDot]; push_cast
    exact Finset.sum_congr rfl fun i _ => (pow_two _).symm
  have eb : (simDot len b b : ℝ) =
      ∑ i ∈ Finset.range len, (b.getD i 0 : ℝ) ^ 2 := by
    rw [simDot]; push_cast
    exact Finset.sum_congr rfl fun i _ => (pow_two _).symm
  rw [eab, ea, eb]
  exact h

theorem calculateCosineSimilarity_ok (a b : List ℤ) (h : a.length = b.length) :
    ∃ r : ℝ, calculateCosineSimilarity a b = .ok r := by
  rw [calculateCosineSimilarity, if_neg (by omega)]
  by_cases hm : Real.sqrt (simDot a.length a a) *
      Real.sqrt (simDot a.length b b) = 0
  · exact ⟨0, by rw [if_pos hm]⟩
  · exact ⟨_, by rw [if_neg hm]⟩

/-- Claim C5: `calculateCosineSimilarity` throws a dimension-mismatch error
iff the lengths differ; with equal lengths it returns 0 when either operand
has zero magnitude (`simDot len x x = 0`, i.e. the all-zero vector), and
otherwise returns `(dot / (|a| * |b|) + 1) / 2`, which lies in [0, 1]. -/
theorem cosineSimilarity_contract (a b : List ℤ) :
    (a.length ≠ b.length ↔
      calculateCosineSimilarity a b = .error "Vector dimension mismatch") ∧
    (a.length = b.length →
      ((simDot a.length a a = 0 ∨ simDot a.length b b = 0) →
        calculateCosineSimilarity a b = .ok 0) ∧
      (simDot a.length a a ≠ 0 → simDot a.length b b ≠ 0 →
        ∃ r : ℝ, calculateCosineSimilarity a b = .ok r ∧
          r = ((simDot a.length a b : ℝ) /
              (Real.sqrt (simDot a.length a a) *
                Real.sqrt (simDot a.length b b)) + 1) / 2 ∧
          0 ≤ r ∧ r ≤ 1)) := by
  refine ⟨⟨fun h => by rw [calculateCosineSimilarity, if_pos h], fun h => ?_⟩,
    fun hlen => ⟨fun hz => ?_, fun hA hB => ?_⟩⟩
  · by_contra hne
    obtain ⟨r, hr⟩ := calculateCosineSimilarity_ok a b (by omega)
    rw [hr] at h
    exact Except.noConfusion h
  · have hm : Real.sqrt (simDot a.length a a) *
        Real.sqrt (simDot a.length b b) = 0 := by
      rcases hz with hz | hz <;> rw [hz] <;> simp
    rw [calculateCosineSimilarity, if_neg (by omega), if_pos hm]
  · have hApos : 0 < simDot a.length a a :=
      lt_of_le_of_ne (simDot_self_nonneg _ _) (Ne.symm hA)
    have hBpos : 0 < simDot a.length b b :=
      lt_of_le_of_ne (simDot_self_nonneg _ _) (Ne.symm hB)
    have hsA : 0 < Real.sqrt (simDot a.length a a) :=
      Real.sqrt_pos.2 (by exact_mod_cast hApos)
    have hsB : 0 < Real.sqrt (simDot a.length b b) :=
      Real.sqrt_pos.2 (by exact_mod_cast hBpos)
    have hM : 0 < Real.sqrt (simDot a.length a a) *
        Real.sqrt (simDot a.length b b) := mul_pos hsA hsB
    refine ⟨_, by rw [calculateCosineSimilarity, if_neg (by omega),
      if_neg (ne_of_gt hM)], rfl, ?_, ?_⟩
    all_goals
      have habs : |(simDot a.length a b : ℝ)| ≤
          Real.sqrt (simDot a.length a a) * Real.sqrt (simDot a.length b b) := by
        rw [← Real.sqrt_sq_eq_abs,
          ← Real.sqrt_mul (by exact_mod_cast hApos.le)]
        exact Real.sqrt_le_sqrt (cauchy_schwarz_simDot a.length a b)
      have hd := abs_le.1 habs
    · have h1 : (-1 : ℝ) ≤ (simDot a.length a b : ℝ) /
          (Real.sqrt (simDot a.length a a) * Real.sqrt (simDot a.length b b)) := by
        rw [le_div_iff₀ hM]
        linarith [hd.1]
      linarith
    · have h2 : (simDot a.length a b : ℝ) /
          (Real.sqrt (simDot a.length a a) * Real.sqrt (simDot a.length b b)) ≤ 1 :=
        (div_le_one hM).2 hd.2
      linarith

/-- Witness for C5 at `a = b = [1]`: equal lengths, nonzero magnitudes, and
a score in [0, 1]. -/
theorem cosineSimilarity_contract_witness :
    ([1] : List ℤ).length = ([1] : List ℤ).length ∧
    simDot ([1] : List ℤ).length [1] [1] ≠ 0 ∧
    ∃ r : ℝ, calculateCosineSimilarity [1] [1] = .ok r ∧
      r = ((simDot ([1] : List ℤ).length [1] [1] : ℝ) /
          (Real.sqrt (simDot ([1] : List ℤ).length [1] [1]) *
            Real.sqrt (simDot ([1] : List ℤ).length [1] [1])) + 1) / 2 ∧
      0 ≤ r ∧ r ≤ 1 :=
  ⟨rfl, by decide,
    ((cosineSimilarity_contract [1] [1]).2 rfl).2 (by decide) (by decide)⟩

theorem getD_map_neg (v : List ℤ) (i : ℕ) (hi : i < v.length) :
    (v.map fun x => -x).getD i 0 = -(v.getD i 0) := by
  rw [List.getD_eq_getElem?_getD, List.getD_eq_getElem?_getD,
    List.getElem?_map, List.getElem?_eq_getElem hi]
  rfl

theorem simDot_map_neg_right (v : List ℤ) :
    simDot v.length v (v.map fun x => -x) = -simDot v.length v v := by
  rw [simDot, simDot, ← Finset.sum_neg_distrib]
  refine Finset.sum_congr rfl fun i hi => ?_
  rw [getD_map_neg v i (Finset.mem_range.1 hi)]
  ring

theorem simDot_map_neg_both (v : List ℤ) :
    simDot v.length (v.map fun x => -x) (v.map fun x => -x) =
      simDot v.length v v := by
  rw [simDot, simDot]
  refine Finset.sum_congr rfl fun i hi => ?_
  rw [getD_map_neg v i (Finset.mem_range.1 hi)]
  ring

/-- Claim C8 amended: for any vector `v` of nonzero magnitude,
`cosineSimilarity v v = 1` and `cosineSimilarity v (-v) = 0` exactly in the
real-arithmetic model; for a zero-magnitude `v` both calls return 0 instead
(see the counterexample). -/
theorem cosine_endpoints (v : List ℤ)
    (hv : simDot v.length v v ≠ 0) :
    calculateCosineSimilarity v v = .ok 1 ∧
    calculateCosineSimilarity v (v.map fun x => -x) = .ok 0 := by
  have hnn : (0 : ℝ) ≤ (simDot v.length v v : ℝ) := by
    exact_mod_cast simDot_self_nonneg v.length v
  have hcast : (simDot v.length v v : ℝ) ≠ 0 := by exact_mod_cast hv
  have hsq : Real.sqrt (simDot v.length v v) * Real.sqrt (simDot v.length v v)
      = (simDot v.length v v : ℝ) := Real.mul_self_sqrt hnn
  have hm : Real.sqrt (simDot v.length v v) * Real.sqrt (simDot v.length v v)
      ≠ 0 := by rw [hsq]; exact hcast
  constructor
  · rw [calculateCosineSimilarity, if_neg (by omega), if_neg hm, hsq,
      div_self hcast]
    norm_num
  · rw [calculateCosineSimilarity,
      if_neg (by rw [List.length_map]; omega),
      simDot_map_neg_both, simDot_map_neg_right, if_neg hm, hsq]
    push_cast
    rw [neg_div, div_self hcast]
    norm_num

/-- Witness for C8 (amended) at `v = [1]`. -/
theorem cosine_endpoints_witness :
    simDot ([1] : List ℤ).length [1] [1] ≠ 0 ∧
    calculateCosineSimilarity [1] [1] = .ok 1 ∧
    calculateCosineSimilarity [1] ([1].map fun x => -x) = .ok 0 :=
  ⟨by decide, (cosine_endpoints [1] (by decide)).1,
    (cosine_endpoints [1] (by decide)).2⟩

/-- Claim C8 counterexample: the claim quantifies over any vector `v`, but
at the zero vector `[0]` the source returns 0 for
`cosineSimilarity(v, v)`, which is not approximately 1. -/
theorem cosine_self_zero_counterexample :
    calculateCosineSimilarity [0] [0] = .ok 0 ∧
    ((0 : ℝ) ≠ 1 ∧ ¬ |(0 : ℝ) - 1| < 1 / 2) := by
  refine ⟨?_, by norm_num, by norm_num⟩
  rw [calculateCosineSimilarity]
  norm_num [simDot]

/-! ### Reciprocal Rank Fusion lemmas (claims C4 and C9) -/

theorem mapGet_nil (k : ℕ) : mapGet [] k = none := rfl

theorem mapGet_cons (e : ℕ × ℕ) (m : List (ℕ × ℕ)) (k : ℕ) :
    mapGet (e :: m) k = if e.1 = k then some e.2 else mapGet m k := by
  rw [mapGet, mapGet]
  by_cases h : e.1 = k
  · rw [List.find?_cons_of_pos _ (by simp [h]), if_pos h]
    rfl
  · rw [List.find?_cons_of_neg _ (by simp [h]), if_neg h]

theorem mapGet_map_overwrite (m : List (ℕ × ℕ)) (k v : ℕ) :
    mapGet (m.map fun e => if e.1 = k then (k, v) else e) k =
      if m.any fun e => e.1 == k then some v else none := by
  induction m with
  | nil => rfl
  | cons e rest ih =>
    by_cases he : e.1 = k
    · have hbe : (e.1 == k) = true := beq_iff_eq.2 he
      simp [mapGet_cons, he, hbe]
    · have hbe : (e.1 == k) = false := beq_false_of_ne he
      rw [List.map_cons, if_neg he, mapGet_cons, if_neg he, ih,
        List.any_cons, hbe, Bool.false_or]

theorem mapGet_map_overwrite_ne (m : List (ℕ × ℕ)) (k v k' : ℕ)
    (h : k' ≠ k) :
    mapGet (m.map fun e => if e.1 = k then (k, v) else e) k' = mapGet m k' := by
  induction m with
  | nil => rfl
  | cons e rest ih =>
    by_cases he : e.1 = k
    · have h1 : k ≠ k' := fun hk => h hk.symm
      have h2 : e.1 ≠ k' := he ▸ h1
      simp [mapGet_cons, he, h1, h2, ih]
    · by_cases he' : e.1 = k' <;>
        simp [mapGet_cons, he, he', ih, h]

theorem mapGet_append_one (m : List (ℕ × ℕ)) (k v k' : ℕ) :
    mapGet (m ++ [(k, v)]) k' =
      match mapGet m k' with
      | some r => some r
      | none => if k = k' then some v else none := by
  induction m with
  | nil => simp [mapGet_cons, mapGet_nil]
  | cons e rest ih =>
    by_cases he : e.1 = k' <;>
      simp [mapGet_cons, he, ih]

theorem mapGet_mapSet (m : List (ℕ × ℕ)) (k v k' : ℕ) :
    mapGet (mapSet m k v) k' = if k' = k then some v else mapGet m k' := by
  rw [mapSet]
  by_cases ha : m.any fun e => e.1 == k
  · rw [if_pos ha]
    by_cases hk : k' = k
    · subst hk
      rw [if_pos rfl, mapGet_map_overwrite, if_pos ha]
    · rw [if_neg hk, mapGet_map_overwrite_ne m k v k' hk]
  · rw [if_neg ha, mapGet_append_one]
    by_cases hk : k' = k
    · subst hk
      have hnone : mapGet m k' = none := by
        rw [mapGet, List.find?_eq_none.2]
        · rfl
        · intro e he
          simp only [List.any_eq_true, not_exists, not_and] at ha
          simpa using ha e he
      rw [hnone, if_pos rfl]
    · rw [if_neg hk]
      cases hm : mapGet m k' with
      | some r => rfl
      | none => rw [if_neg fun h => hk h.symm]

theorem mapGet_buildRankMapFrom_of_not_mem (l : List ℕ) :
    ∀ (i : ℕ) (m : List (ℕ × ℕ)) (k : ℕ), k ∉ l →
      mapGet (buildRankMapFrom i l m) k = mapGet m k := by
  induction l with
  | nil => intro _ _ _ _; rfl
  | cons x rest ih =>
    intro i m k hk
    rw [buildRankMapFrom, ih _ _ _ (fun h => hk (List.mem_cons_of_mem _ h)),
      mapGet_mapSet, if_neg (fun h => hk (List.mem_cons.2 (Or.inl h)))]

theorem mapGet_buildRankMapFrom_of_nodup (l : List ℕ) :
    ∀ (i : ℕ) (m : List (ℕ × ℕ)) (k : ℕ), l.Nodup → k ∈ l →
      mapGet (buildRankMapFrom i l m) k = some (i + l.indexOf k + 1) := by
  induction l with
  | nil => intro _ _ _ _ h; exact absurd h (List.not_mem_nil _)
  | cons x rest ih =>
    intro i m k hnd hk
    rw [buildRankMapFrom]
    rcases List.mem_cons.1 hk with rfl | hmem
    · have hx : k ∉ rest := (List.nodup_cons.1 hnd).1
      rw [mapGet_buildRankMapFrom_of_not_mem rest _ _ _ hx, mapGet_mapSet,
        if_pos rfl, List.indexOf_cons_self]
    · have hne : x ≠ k := by
        rintro rfl
        exact (List.nodup_cons.1 hnd).1 hmem
      rw [ih _ _ _ (List.nodup_cons.1 hnd).2 hmem, List.indexOf_cons_ne _ hne]
      congr 1
      omega

theorem mapGet_buildRankMapFrom_pos (l : List ℕ) :
    ∀ (i : ℕ) (m : List (ℕ × ℕ)),
      (∀ k v, mapGet m k = some v → 1 ≤ v) →
      ∀ k v, mapGet (buildRankMapFrom i l m) k = some v → 1 ≤ v := by
  induction l with
  | nil => intro _ _ hm k v h; exact hm k v h
  | cons x rest ih =>
    intro i m hm
    refine ih _ _ ?_
    intro k v h
    rw [mapGet_mapSet] at h
    by_cases hk : k = x
    · rw [if_pos hk] at h
      have := Option.some.inj h
      omega
    · rw [if_neg hk] at h
      exact hm k v h

theorem rank_pos (l : List ℕ) (k v : ℕ)
    (h : mapGet (buildRankMap l) k = some v) : 1 ≤ v :=
  mapGet_buildRankMapFrom_pos l 0 []
    (fun _ _ h0 => absurd h0 (by simp [mapGet_nil])) k v h

theorem rank_lookup (l : List ℕ) (hl : l.Nodup) (k : ℕ) :
    mapGet (buildRankMap l) k =
      if k ∈ l then some (l.indexOf k + 1) else none := by
  by_cases hk : k ∈ l
  · rw [if_pos hk, buildRankMap,
      mapGet_buildRankMapFrom_of_nodup l 0 [] k hl hk]
    norm_num
  · rw [if_neg hk, buildRankMap,
      mapGet_buildRankMapFrom_of_not_mem l 0 [] k hk]
    rfl

theorem mem_insertKey (acc : List ℕ) (x y : ℕ) :
    x ∈ insertKey acc y ↔ x ∈ acc ∨ x = y := by
  rw [insertKey]
  by_cases h : y ∈ acc
  · rw [if_pos h]
    exact ⟨Or.inl, fun hx => hx.elim id fun he => he ▸ h⟩
  · rw [if_neg h]
    simp

theorem mem_foldl_insertKey (l : List ℕ) :
    ∀ (acc : List ℕ) (x : ℕ), x ∈ l.foldl insertKey acc ↔ x ∈ acc ∨ x ∈ l := by
  induction l with
  | nil => simp
  | cons y rest ih =>
    intro acc x
    rw [List.foldl_cons, ih, mem_insertKey, List.mem_cons]
    tauto

theorem mem_allKeys (vk fk : List ℕ) (x : ℕ) :
    x ∈ allKeys vk fk ↔ x ∈ vk ∨ x ∈ fk := by
  rw [allKeys, mem_foldl_insertKey]
  simp

theorem nodup_insertKey (acc : List ℕ) (y : ℕ) (h : acc.Nodup) :
    (insertKey acc y).Nodup := by
  rw [insertKey]
  by_cases hy : y ∈ acc
  · rwa [if_pos hy]
  · rw [if_neg hy]
    simp [List.nodup_append, h, hy]

theorem nodup_foldl_insertKey (l : List ℕ) :
    ∀ acc : List ℕ, acc.Nodup → (l.foldl insertKey acc).Nodup := by
  induction l with
  | nil => exact fun _ h => h
  | cons y rest ih =>
    intro acc h
    exact ih _ (nodup_insertKey acc y h)

/-- Claim C4: the fused score of every item appearing in either result list
equals `w * 1/(60 + rank_vector) + (1 - w) * 1/(60 + rank_fts)`, an absent
list contributing 0, with 1-based ranks; the destructured default weight is
0.5; and for a weight strictly between 0 and 1 (in particular the default)
every such item receives a strictly positive fused score and an entry in the
`rrfScores` map. -/
theorem hybridSearch_rrf_score (vk fk : List ℕ) (w : ℚ) (k : ℕ)
    (hv : vk.Nodup) (hf : fk.Nodup) :
    hybridWeightOf none = 1 / 2 ∧
    (k ∈ vk ∨ k ∈ fk →
      rrfScore vk fk w k =
        (if k ∈ vk then w * (1 / (60 + ((vk.indexOf k : ℚ) + 1))) else 0) +
        (if k ∈ fk then (1 - w) * (1 / (60 + ((fk.indexOf k : ℚ) + 1)))
          else 0)) ∧
    (0 < w → w < 1 → k ∈ vk ∨ k ∈ fk →
      0 < rrfScore vk fk w k ∧
      (k, rrfScore vk fk w k) ∈ rrfScoresOf vk fk w) := by
  have hformula : rrfScore vk fk w k =
      (if k ∈ vk then w * (1 / (60 + ((vk.indexOf k : ℚ) + 1))) else 0) +
      (if k ∈ fk then (1 - w) * (1 / (60 + ((fk.indexOf k : ℚ) + 1)))
        else 0) := by
    rw [rrfScore, rank_lookup vk hv, rank_lookup fk hf]
    by_cases hkv : k ∈ vk <;> by_cases hkf : k ∈ fk <;>
      simp [hkv, hkf]
  have hpos : 0 < w → w < 1 → (k ∈ vk ∨ k ∈ fk) → 0 < rrfScore vk fk w k := by
    intro hw0 hw1 hmem
    rw [hformula]
    have hv60 : (0 : ℚ) < 60 + ((vk.indexOf k : ℚ) + 1) := by positivity
    have hf60 : (0 : ℚ) < 60 + ((fk.indexOf k : ℚ) + 1) := by positivity
    have hw2 : 0 < 1 - w := by linarith
    rcases hmem with hmem | hmem
    · rw [if_pos hmem]
      have hp1 : 0 < w * (1 / (60 + ((vk.indexOf k : ℚ) + 1))) := by positivity
      by_cases hkf : k ∈ fk
      · rw [if_pos hkf]
        have hp2 : 0 < (1 - w) * (1 / (60 + ((fk.indexOf k : ℚ) + 1))) := by
          positivity
        linarith
      · rw [if_neg hkf]
        linarith
    · rw [if_pos hmem]
      have hp2 : 0 < (1 - w) * (1 / (60 + ((fk.indexOf k : ℚ) + 1))) := by
        positivity
      by_cases hkv : k ∈ vk
      · rw [if_pos hkv]
        have hp1 : 0 < w * (1 / (60 + ((vk.indexOf k : ℚ) + 1))) := by
          positivity
        linarith
      · rw [if_neg hkv]
        linarith
  refine ⟨rfl, fun _ => hformula,
    fun hw0 hw1 hmem => ⟨hpos hw0 hw1 hmem, ?_⟩⟩
  have hdef : rrfScoresOf vk fk w = (allKeys vk fk).filterMap fun key =>
      if 0 < rrfScore vk fk w key then some (key, rrfScore vk fk w key)
      else none := rfl
  rw [hdef]
  exact List.mem_filterMap.2 ⟨k, (mem_allKeys vk fk k).2 hmem,
    by rw [if_pos (hpos hw0 hw1 hmem)]⟩

/-- Witness for C4: key 5 ranked first in the vector list and absent from
the full-text list, at the default weight 0.5. -/
theorem hybridSearch_rrf_score_witness :
    ([5, 8] : List ℕ).Nodup ∧ ([8, 3] : List ℕ).Nodup ∧
    ((5 : ℕ) ∈ [5, 8] ∨ (5 : ℕ) ∈ [8, 3]) ∧
    (0 : ℚ) < 1 / 2 ∧ (1 : ℚ) / 2 < 1 ∧
    hybridWeightOf none = 1 / 2 ∧
    rrfScore [5, 8] [8, 3] (1 / 2) 5 =
      (if (5 : ℕ) ∈ [5, 8] then
        (1 / 2 : ℚ) * (1 / (60 + ((([5, 8] : List ℕ).indexOf 5 : ℚ) + 1)))
      else 0) +
      (if (5 : ℕ) ∈ [8, 3] then
        (1 - 1 / 2 : ℚ) * (1 / (60 + ((([8, 3] : List ℕ).indexOf 5 : ℚ) + 1)))
      else 0) ∧
    0 < rrfScore [5, 8] [8, 3] (1 / 2) 5 ∧
    (5, rrfScore [5, 8] [8, 3] (1 / 2) 5) ∈ rrfScoresOf [5, 8] [8, 3] (1 / 2) := by
  have hv : ([5, 8] : List ℕ).Nodup := by decide
  have hf : ([8, 3] : List ℕ).Nodup := by decide
  have hmem : (5 : ℕ) ∈ [5, 8] ∨ (5 : ℕ) ∈ [8, 3] := by decide
  have T := hybridSearch_rrf_score [5, 8] [8, 3] (1 / 2) 5 hv hf
  have h0 : (0 : ℚ) < 1 / 2 := by norm_num
  have h1 : (1 : ℚ) / 2 < 1 := by norm_num
  exact ⟨hv, hf, hmem, h0, h1, T.1, T.2.1 hmem, (T.2.2 h0 h1 hmem).1,
    (T.2.2 h0 h1 hmem).2⟩

theorem rrfScore_le_max (vk fk : List ℕ) (w : ℚ) (k : ℕ)
    (h0 : 0 ≤ w) (h1 : w ≤ 1) : rrfScore vk fk w k ≤ 1 / 61 := by
  rcases hmv : mapGet (buildRankMap vk) k with _ | r1 <;>
    rcases hmf : mapGet (buildRankMap fk) k with _ | r2 <;>
    rw [rrfScore, hmv, hmf] <;> dsimp only
  · norm_num
  · have hr2 : 1 ≤ r2 := rank_pos fk k r2 hmf
    have h61 : (61 : ℚ) ≤ 60 + (r2 : ℚ) := by
      have : (1 : ℚ) ≤ (r2 : ℚ) := by exact_mod_cast hr2
      linarith
    have hb : 1 / (60 + (r2 : ℚ)) ≤ 1 / 61 :=
      one_div_le_one_div_of_le (by norm_num) h61
    have e2 := mul_le_mul_of_nonneg_left hb (by linarith : (0 : ℚ) ≤ 1 - w)
    set A := (1 : ℚ) / (60 + (r2 : ℚ))
    clear_value A
    have e3 : ((1 : ℚ) - w) * (1 / 61) ≤ 1 / 61 := by linarith
    have e4 : (0 : ℚ) + (1 - w) * A = (1 - w) * A := by ring
    rw [e4]
    exact le_trans e2 e3
  · have hr1 : 1 ≤ r1 := rank_pos vk k r1 hmv
    have h61 : (61 : ℚ) ≤ 60 + (r1 : ℚ) := by
      have : (1 : ℚ) ≤ (r1 : ℚ) := by exact_mod_cast hr1
      linarith
    have hb : 1 / (60 + (r1 : ℚ)) ≤ 1 / 61 :=
      one_div_le_one_div_of_le (by norm_num) h61
    have e1 := mul_le_mul_of_nonneg_left hb h0
    set A := (1 : ℚ) / (60 + (r1 : ℚ))
    clear_value A
    have e3 : w * (1 / 61 : ℚ) ≤ 1 / 61 := by linarith
    have e4 : w * A + (0 : ℚ) = w * A := by ring
    rw [e4]
    exact le_trans e1 e3
  · have hr1 : 1 ≤ r1 := rank_pos vk k r1 hmv
    have hr2 : 1 ≤ r2 := rank_pos fk k r2 hmf
    have h61a : (61 : ℚ) ≤ 60 + (r1 : ℚ) := by
      have : (1 : ℚ) ≤ (r1 : ℚ) := by exact_mod_cast hr1
      linarith
    have h61b : (61 : ℚ) ≤ 60 + (r2 : ℚ) := by
      have : (1 : ℚ) ≤ (r2 : ℚ) := by exact_mod_cast hr2
      linarith
    have hb1 : 1 / (60 + (r1 : ℚ)) ≤ 1 / 61 :=
      one_div_le_one_div_of_le (by norm_num) h61a
    have hb2 : 1 / (60 + (r2 : ℚ)) ≤ 1 / 61 :=
      one_div_le_one_div_of_le (by norm_num) h61b
    have e1 := mul_le_mul_of_nonneg_left hb1 h0
    have e2 := mul_le_mul_of_nonneg_left hb2 (by linarith : (0 : ℚ) ≤ 1 - w)
    set A1 := (1 : ℚ) / (60 + (r1 : ℚ))
    set A2 := (1 : ℚ) / (60 + (r2 : ℚ))
    clear_value A1 A2
    calc w * A1 + (1 - w) * A2 ≤ w * (1 / 61) + (1 - w) * (1 / 61) :=
          add_le_add e1 e2
      _ = 1 / 61 := by ring

/-- Claim C9: every RRF score is at most `1/61` (for any weight in [0, 1]),
so `hybridSearch` with any `minScore` above `1/61` returns the empty list:
cosine-similarity thresholds such as 0.1 cannot be reused as a hybrid
`minScore`. -/
theorem hybridSearch_minScore_bound (vk fk : List ℕ) (w minScore : ℚ)
    (topK k : ℕ) (h0 : 0 ≤ w) (h1 : w ≤ 1) :
    rrfScore vk fk w k ≤ 1 / 61 ∧
    (1 / 61 < minScore → hybridFuse vk fk w minScore topK = []) := by
  refine ⟨rrfScore_le_max vk fk w k h0 h1, fun hms => ?_⟩
  rw [hybridFuse]
  have hdef : rrfScoresOf vk fk w = (allKeys vk fk).filterMap fun key =>
      if 0 < rrfScore vk fk w key then some (key, rrfScore vk fk w key)
      else none := rfl
  have hfil : ((rrfScoresOf vk fk w).filter fun e => minScore ≤ e.2) = [] := by
    rw [List.filter_eq_nil_iff]
    intro e he
    rw [hdef] at he
    obtain ⟨key, -, hfe⟩ := List.mem_filterMap.1 he
    by_cases hp : 0 < rrfScore vk fk w key
    · rw [if_pos hp] at hfe
      cases hfe
      have hle := rrfScore_le_max vk fk w key h0 h1
      simp only [decide_eq_true_eq]
      push_neg
      linarith
    · rw [if_neg hp] at hfe
      exact absurd hfe (by simp)
  rw [hfil]
  simp [List.insertionSort]

/-- Witness for C9: with weight 0.5 and `minScore = 0.1 > 1/61`, the fused
result list is empty even though both input lists are nonempty. -/
theorem hybridSearch_minScore_bound_witness :
    (0 : ℚ) ≤ 1 / 2 ∧ (1 : ℚ) / 2 ≤ 1 ∧ (1 : ℚ) / 61 < 1 / 10 ∧
    rrfScore [1, 2] [2, 3] (1 / 2) 1 ≤ 1 / 61 ∧
    hybridFuse [1, 2] [2, 3] (1 / 2) (1 / 10) 5 = [] := by
  have h0 : (0 : ℚ) ≤ 1 / 2 := by norm_num
  have h1 : (1 : ℚ) / 2 ≤ 1 := by norm_num
  have T := hybridSearch_minScore_bound [1, 2] [2, 3] (1 / 2) (1 / 10) 5 1 h0 h1
  exact ⟨h0, h1, by norm_num, T.1, T.2 (by norm_num)⟩

/-! ### Index build and failure semantics (claims C1 and C7) -/

theorem populateBuckets_preserves (configId : ℕ)
    (stored : List LSHHashFunction) (dims : ℕ) :
    ∀ (vs : List StoredVector) (s : Store) (e : Option String) (s' : Store),
      populateBuckets configId stored dims vs s = (e, s') →
      s'.vectors = s.vectors ∧ s'.configs = s.configs ∧
        s'.hashFns = s.hashFns := by
  intro vs
  induction vs with
  | nil =>
    intro s e s' h
    cases h
    exact ⟨rfl, rfl, rfl⟩
  | cons v rest ih =>
    intro s e s' h
    cases hcv : computeHashVector v.vec stored dims with
    | error msg =>
      simp only [populateBuckets, hcv] at h
      cases h
      exact ⟨rfl, rfl, rfl⟩
    | ok hsh =>
      simp only [populateBuckets, hcv] at h
      exact ih { s with buckets := s.buckets ++ [⟨configId, hsh, v.id⟩] }
        e s' h

theorem populateBuckets_buckets_mono (configId : ℕ)
    (stored : List LSHHashFunction) (dims : ℕ) :
    ∀ (vs : List StoredVector) (s : Store) (e : Option String) (s' : Store),
      populateBuckets configId stored dims vs s = (e, s') →
      ∀ row ∈ s.buckets, row ∈ s'.buckets := by
  intro vs
  induction vs with
  | nil =>
    intro s e s' h row hrow
    cases h
    exact hrow
  | cons v rest ih =>
    intro s e s' h row hrow
    cases hcv : computeHashVector v.vec stored dims with
    | error msg =>
      simp only [populateBuckets, hcv] at h
      cases h
      exact hrow
    | ok hsh =>
      simp only [populateBuckets, hcv] at h
      exact ih { s with buckets := s.buckets ++ [⟨configId, hsh, v.id⟩] }
        e s' h row (List.mem_append_left _ hrow)

theorem populateBuckets_ok_mem (configId : ℕ)
    (stored : List LSHHashFunction) (dims : ℕ) :
    ∀ (vs : List StoredVector) (s : Store) (s' : Store),
      populateBuckets configId stored dims vs s = (none, s') →
      ∀ v ∈ vs, ∃ h, computeHashVector v.vec stored dims = .ok h ∧
        BucketRow.mk configId h v.id ∈ s'.buckets := by
  intro vs
  induction vs with
  | nil =>
    intro s s' _ v hv
    exact absurd hv (List.not_mem_nil v)
  | cons u rest ih =>
    intro s s' h v hv
    cases hcv : computeHashVector u.vec stored dims with
    | error msg =>
      simp only [populateBuckets, hcv] at h
      cases h
    | ok hsh =>
      simp only [populateBuckets, hcv] at h
      rcases List.mem_cons.1 hv with rfl | hmem
      · refine ⟨hsh, hcv, ?_⟩
        exact populateBuckets_buckets_mono configId stored dims rest
          { s with buckets := s.buckets ++ [⟨configId, hsh, v.id⟩] } none s' h
          ⟨configId, hsh, v.id⟩
          (List.mem_append_right _ (List.mem_singleton.2 rfl))
      · exact ih { s with buckets := s.buckets ++ [⟨configId, hsh, u.id⟩] }
          s' h v hmem

theorem populateBuckets_rows (configId : ℕ)
    (stored : List LSHHashFunction) (dims : ℕ) :
    ∀ (vs : List StoredVector) (s : Store) (e : Option String) (s' : Store),
      populateBuckets configId stored dims vs s = (e, s') →
      ∀ row ∈ s'.buckets, row ∈ s.buckets ∨
        (row.configId = configId ∧ ∃ v ∈ vs, row.vectorId = v.id ∧
          computeHashVector v.vec stored dims = .ok row.bucketHash) := by
  intro vs
  induction vs with
  | nil =>
    intro s e s' h row hrow
    cases h
    exact Or.inl hrow
  | cons u rest ih =>
    intro s e s' h row hrow
    cases hcv : computeHashVector u.vec stored dims with
    | error msg =>
      simp only [populateBuckets, hcv] at h
      cases h
      exact Or.inl hrow
    | ok hsh =>
      simp only [populateBuckets, hcv] at h
      rcases ih { s with buckets :=
          s.buckets ++ [⟨configId, hsh, u.id⟩] } e s' h row hrow with
        hold | ⟨hc, v, hvmem, hvid, hvh⟩
      · rcases List.mem_append.1 hold with hold | hnew
        · exact Or.inl hold
        · rcases List.mem_singleton.1 hnew with rfl
          exact Or.inr ⟨rfl, u, List.mem_cons_self u rest, rfl, hcv⟩
      · exact Or.inr ⟨hc, v, List.mem_cons_of_mem u hvmem, hvid, hvh⟩

theorem populateBuckets_ok_length (configId : ℕ)
    (stored : List LSHHashFunction) (dims : ℕ) :
    ∀ (vs : List StoredVector) (s : Store) (s' : Store),
      populateBuckets configId stored dims vs s = (none, s') →
      s'.buckets.length = s.buckets.length + vs.length := by
  intro vs
  induction vs with
  | nil =>
    intro s s' h
    cases h
    rfl
  | cons u rest ih =>
    intro s s' h
    cases hcv : computeHashVector u.vec stored dims with
    | error msg =>
      simp only [populateBuckets, hcv] at h
      cases h
    | ok hsh =>
      simp only [populateBuckets, hcv] at h
      have := ih { s with buckets := s.buckets ++ [⟨configId, hsh, u.id⟩] }
        s' h
      simp only [List.length_append, List.length_cons, List.length_nil,
        List.length_singleton] at this ⊢
      omega

theorem generateVectorIndex_unfold (s : Store) (dims : ℕ)
    (proj : ℕ → List ℚ) (cid : ℕ) (h : s.vectors ≠ []) :
    generateVectorIndex s dims proj cid =
      populateBuckets cid
        (getLSHHashFunctions
          ⟨s.vectors,
            [⟨cid, s.vectors.length, dims, numHashFunctions s.vectors.length⟩],
            (createHashFunctions s.vectors.length dims proj).2.map
              (fun p => ⟨cid, p.1, p.2⟩), []⟩ cid)
        dims s.vectors
        ⟨s.vectors,
          [⟨cid, s.vectors.length, dims, numHashFunctions s.vectors.length⟩],
          (createHashFunctions s.vectors.length dims proj).2.map
            (fun p => ⟨cid, p.1, p.2⟩), []⟩ := by
  rw [generateVectorIndex,
    if_neg fun hl => h (List.length_eq_zero.1 hl)]
  rfl

/-- Claim C1 amended: the rebuild is not atomic on failure.  For every run
of `generateVectorIndex`: the vector table is unchanged; an empty corpus is
a successful no-op; and over a nonempty corpus the prior LSH config, hash
functions and buckets are cleared unconditionally and replaced by the fresh
config and its hash functions, with one bucket row per vector on success,
while on failure the store keeps the fresh config, the fresh hash
functions, and bucket rows for only a subset of the vectors — the prior
index is not left untouched. -/
theorem generateVectorIndex_failure_semantics (s : Store) (dims : ℕ)
    (proj : ℕ → List ℚ) (cid : ℕ) (e : Option String) (s' : Store)
    (hrun : generateVectorIndex s dims proj cid = (e, s')) :
    s'.vectors = s.vectors ∧
    ((s.vectors = [] ∧ e = none ∧ s' = s) ∨
     (s.vectors ≠ [] ∧
      s'.configs =
        [⟨cid, s.vectors.length, dims, numHashFunctions s.vectors.length⟩] ∧
      s'.hashFns = (createHashFunctions s.vectors.length dims proj).2.map
        (fun p => ⟨cid, p.1, p.2⟩) ∧
      (∀ row ∈ s'.buckets, row.configId = cid ∧ ∃ v ∈ s.vectors,
        row.vectorId = v.id ∧
        computeHashVector v.vec (getLSHHashFunctions s' cid) dims =
          .ok row.bucketHash) ∧
      (e = none → (∀ v ∈ s.vectors, ∃ h,
        computeHashVector v.vec (getLSHHashFunctions s' cid) dims = .ok h ∧
        BucketRow.mk cid h v.id ∈ s'.buckets) ∧
        s'.buckets.length = s.vectors.length))) := by
  by_cases hempty : s.vectors = []
  · rw [generateVectorIndex, if_pos (by rw [hempty]; rfl)] at hrun
    cases hrun
    exact ⟨rfl, Or.inl ⟨hempty, rfl, rfl⟩⟩
  · rw [generateVectorIndex_unfold s dims proj cid hempty] at hrun
    obtain ⟨hv, hc, hh⟩ :=
      populateBuckets_preserves _ _ _ _ _ _ _ hrun
    have hstored : getLSHHashFunctions s' cid =
        getLSHHashFunctions
          ⟨s.vectors,
            [⟨cid, s.vectors.length, dims, numHashFunctions s.vectors.length⟩],
            (createHashFunctions s.vectors.length dims proj).2.map
              (fun p => ⟨cid, p.1, p.2⟩), []⟩ cid := by
      rw [getLSHHashFunctions, getLSHHashFunctions, hh]
    refine ⟨hv, Or.inr ⟨hempty, hc, hh, ?_, fun he => ⟨?_, ?_⟩⟩⟩
    · intro row hrow
      rcases populateBuckets_rows _ _ _ _ _ _ _ hrun row hrow with
        hold | ⟨hcid, v, hvmem, hvid, hvh⟩
      · exact absurd hold (List.not_mem_nil row)
      · exact ⟨hcid, v, hvmem, hvid, by rw [hstored]; exact hvh⟩
    · subst he
      intro v hvmem
      obtain ⟨hb, hok, hmem⟩ :=
        populateBuckets_ok_mem _ _ _ _ _ _ hrun v hvmem
      exact ⟨hb, by rw [hstored]; exact hok, hmem⟩
    · subst he
      have := populateBuckets_ok_length _ _ _ _ _ _ hrun
      simpa using this

/-- Witness for C1 (amended): a successful build over two one-dimensional
vectors, checked against the concrete resulting store. -/
theorem generateVectorIndex_failure_semantics_witness :
    generateVectorIndex ⟨[⟨0, [1]⟩, ⟨1, [-1]⟩], [], [], []⟩ 1
        (fun _ => [1]) 7 =
      (none, ⟨[⟨0, [1]⟩, ⟨1, [-1]⟩], [⟨7, 2, 1, 1⟩], [⟨7, 0, [1]⟩],
        [⟨7, [1], 0⟩, ⟨7, [0], 1⟩]⟩) ∧
    (⟨[⟨0, [1]⟩, ⟨1, [-1]⟩], [⟨7, 2, 1, 1⟩], [⟨7, 0, [1]⟩],
        [⟨7, [1], 0⟩, ⟨7, [0], 1⟩]⟩ : Store).vectors =
      (⟨[⟨0, [1]⟩, ⟨1, [-1]⟩], [], [], []⟩ : Store).vectors := by
  have hrun : generateVectorIndex ⟨[⟨0, [1]⟩, ⟨1, [-1]⟩], [], [], []⟩ 1
      (fun _ => [1]) 7 =
      (none, ⟨[⟨0, [1]⟩, ⟨1, [-1]⟩], [⟨7, 2, 1, 1⟩], [⟨7, 0, [1]⟩],
        [⟨7, [1], 0⟩, ⟨7, [0], 1⟩]⟩) := by
    norm_num [generateVectorIndex, clearLSHTables, createHashFunctions,
      numHashFunctions, ceilLog2Go, getLSHHashFunctions, populateBuckets,
      computeHashVector, computeHashBits, dotProduct, List.insertionSort,
      List.orderedInsert, List.range_succ, except_ok_bind]
  exact ⟨hrun,
    (generateVectorIndex_failure_semantics _ 1 (fun _ => [1]) 7 _ _ hrun).1⟩

/-- Claim C1 counterexample: rebuilding over a single stored vector with a
prior index present raises an error, yet the store is mutated — the prior
config, hash functions and buckets are gone and a fresh config remains. -/
theorem generateVectorIndex_not_atomic :
    (generateVectorIndex
        ⟨[⟨0, [1]⟩], [⟨9, 1, 1, 1⟩], [⟨9, 0, [1]⟩], [⟨9, [1], 0⟩]⟩ 1
        (fun _ => [1]) 5).1.isSome = true ∧
    (generateVectorIndex
        ⟨[⟨0, [1]⟩], [⟨9, 1, 1, 1⟩], [⟨9, 0, [1]⟩], [⟨9, [1], 0⟩]⟩ 1
        (fun _ => [1]) 5).2 ≠
      ⟨[⟨0, [1]⟩], [⟨9, 1, 1, 1⟩], [⟨9, 0, [1]⟩], [⟨9, [1], 0⟩]⟩ ∧
    (generateVectorIndex
        ⟨[⟨0, [1]⟩], [⟨9, 1, 1, 1⟩], [⟨9, 0, [1]⟩], [⟨9, [1], 0⟩]⟩ 1
        (fun _ => [1]) 5).2.buckets = [] ∧
    (generateVectorIndex
        ⟨[⟨0, [1]⟩], [⟨9, 1, 1, 1⟩], [⟨9, 0, [1]⟩], [⟨9, [1], 0⟩]⟩ 1
        (fun _ => [1]) 5).2.configs = [⟨5, 1, 1, 0⟩] := by
  decide

/-- Claim C7 amended: an index build over an empty vector table is a
successful no-op, but a bucket-signature computation with zero hash
functions raises an error rather than acting as a no-op; consequently an
index build over exactly one stored vector (which generates zero hash
functions) raises an error. -/
theorem emptyInput_semantics (s : Store) (dims cid : ℕ)
    (proj : ℕ → List ℚ) (queryVec : List ℤ) :
    (s.vectors = [] → generateVectorIndex s dims proj cid = (none, s)) ∧
    (∃ msg, computeHashVector queryVec [] dims = .error msg) ∧
    (s.vectors.length = 1 →
      ∃ msg s', generateVectorIndex s dims proj cid = (some msg, s')) := by
  have hzero : ∀ (w : List ℤ), ∃ msg,
      computeHashVector w [] dims = .error msg := by
    intro w
    by_cases hl : w.length ≠ dims
    · exact ⟨_, by rw [computeHashVector, if_pos hl]⟩
    · exact ⟨_, by rw [computeHashVector, if_neg hl, if_pos List.length_nil]⟩
  refine ⟨fun he => ?_, hzero queryVec, fun hone => ?_⟩
  · rw [generateVectorIndex, if_pos (by rw [he]; rfl)]
  · obtain ⟨v, hv⟩ := List.length_eq_one.1 hone
    have hne : s.vectors ≠ [] := by rw [hv]; exact List.cons_ne_nil v []
    rw [generateVectorIndex_unfold s dims proj cid hne, hv]
    obtain ⟨msg, hmsg⟩ := hzero v.vec
    have hfns : (createHashFunctions [v].length dims proj).2.map
        (fun p => (⟨cid, p.1, p.2⟩ : LSHHashFunction)) = [] := rfl
    rw [hfns]
    have hst : getLSHHashFunctions
        ⟨[v], [⟨cid, [v].length, dims, numHashFunctions [v].length⟩],
          [], []⟩ cid = [] := rfl
    rw [hst]
    simp only [populateBuckets, hmsg]
    exact ⟨msg, _, rfl⟩

/-- Witness for C7 (amended): the empty store is a no-op build; the
signature computation with no hash functions errors; the single-vector
build errors. -/
theorem emptyInput_semantics_witness :
    ((⟨[], [], [], []⟩ : Store).vectors = [] ∧
      generateVectorIndex ⟨[], [], [], []⟩ 2 (fun _ => [1, 1]) 3 =
        (none, ⟨[], [], [], []⟩)) ∧
    (∃ msg, computeHashVector [5] [] 2 = .error msg) ∧
    ((⟨[⟨6, [4]⟩], [], [], []⟩ : Store).vectors.length = 1 ∧
      ∃ msg s', generateVectorIndex ⟨[⟨6, [4]⟩], [], [], []⟩ 1
        (fun _ => [1]) 2 = (some msg, s')) :=
  ⟨⟨rfl, (emptyInput_semantics ⟨[], [], [], []⟩ 2 3 (fun _ => [1, 1])
      [5]).1 rfl⟩,
    (emptyInput_semantics ⟨[], [], [], []⟩ 2 3 (fun _ => [1, 1]) [5]).2.1,
    ⟨rfl, (emptyInput_semantics ⟨[⟨6, [4]⟩], [], [], []⟩ 1 2 (fun _ => [1])
      [5]).2.2 rfl⟩⟩

/-- Claim C7 counterexample: `computeHashVector` with zero hash functions
throws, and an index build over a corpus of exactly one vector (zero
generated hash functions) throws rather than completing as a no-op. -/
theorem zero_hash_functions_counterexample :
    computeHashVector [1] [] 1 = .error "No hash functions provided" ∧
    (generateVectorIndex ⟨[⟨3, [2]⟩], [], [], []⟩ 1 (fun _ => [1]) 4).1 =
      some "No hash functions provided" := by
  decide

/-! ### Candidate accumulation (claim C3) -/

/-- The deduplicated union of the vector ids of a run of buckets, in visit
order — the reference value for the candidate-collection loop. -/
def accumulateBuckets (bs : List ((List ℕ × List ℕ) × ℕ)) (acc : List ℕ) :
    List ℕ :=
  bs.foldl (fun a b => addAll a b.1.2) acc

theorem addAll_eq_foldl (acc ids : List ℕ) :
    addAll acc ids = ids.foldl insertKey acc := rfl

theorem mem_addAll (acc ids : List ℕ) (x : ℕ) :
    x ∈ addAll acc ids ↔ x ∈ acc ∨ x ∈ ids := by
  rw [addAll_eq_foldl, mem_foldl_insertKey]

theorem nodup_addAll (acc ids : List ℕ) (h : acc.Nodup) :
    (addAll acc ids).Nodup := by
  rw [addAll_eq_foldl]
  exact nodup_foldl_insertKey ids acc h

theorem collectCandidates_mono (t : ℕ) :
    ∀ (bs : List ((List ℕ × List ℕ) × ℕ)) (acc : List ℕ) (x : ℕ),
      x ∈ acc → x ∈ collectCandidates t bs acc := by
  intro bs
  induction bs with
  | nil => exact fun acc x hx => hx
  | cons b rest ih =>
    intro acc x hx
    rw [collectCandidates]
    by_cases hif : t ≤ (addAll acc b.1.2).length
    · rw [if_pos hif]
      exact (mem_addAll acc b.1.2 x).2 (Or.inl hx)
    · rw [if_neg hif]
      exact ih _ x ((mem_addAll acc b.1.2 x).2 (Or.inl hx))

theorem collectCandidates_nodup (t : ℕ) :
    ∀ (bs : List ((List ℕ × List ℕ) × ℕ)) (acc : List ℕ), acc.Nodup →
      (collectCandidates t bs acc).Nodup := by
  intro bs
  induction bs with
  | nil => exact fun acc h => h
  | cons b rest ih =>
    intro acc h
    rw [collectCandidates]
    by_cases hif : t ≤ (addAll acc b.1.2).length
    · rw [if_pos hif]
      exact nodup_addAll acc b.1.2 h
    · rw [if_neg hif]
      exact ih _ (nodup_addAll acc b.1.2 h)

theorem collectCandidates_head (t : ℕ) (b : (List ℕ × List ℕ) × ℕ)
    (rest : List ((List ℕ × List ℕ) × ℕ)) (acc : List ℕ) (x : ℕ)
    (hx : x ∈ addAll acc b.1.2) :
    x ∈ collectCandidates t (b :: rest) acc := by
  rw [collectCandidates]
  by_cases hif : t ≤ (addAll acc b.1.2).length
  · rw [if_pos hif]
    exact hx
  · rw [if_neg hif]
    exact collectCandidates_mono t rest _ x hx

theorem collectCandidates_spec (t : ℕ) :
    ∀ (bs : List ((List ℕ × List ℕ) × ℕ)) (acc : List ℕ),
      ∃ k ≤ bs.length,
        collectCandidates t bs acc = accumulateBuckets (bs.take k) acc ∧
        (k = bs.length ∨ t ≤ (collectCandidates t bs acc).length) ∧
        (∀ j, 0 < j → j < k →
          (accumulateBuckets (bs.take j) acc).length < t) ∧
        (bs ≠ [] → 1 ≤ k) := by
  intro bs
  induction bs with
  | nil =>
    intro acc
    exact ⟨0, le_rfl, rfl, Or.inl rfl, fun j hj hjk => absurd hjk (by omega),
      fun h => absurd rfl h⟩
  | cons b rest ih =>
    intro acc
    by_cases hif : t ≤ (addAll acc b.1.2).length
    · refine ⟨1, by simp, ?_, ?_, ?_, fun _ => le_rfl⟩
      · rw [collectCandidates, if_pos hif]
        rfl
      · right
        rw [collectCandidates, if_pos hif]
        exact hif
      · intro j hj hjk
        omega
    · obtain ⟨k, hk, heq, hstop, hmin, -⟩ := ih (addAll acc b.1.2)
      refine ⟨k + 1, by simpa using hk, ?_, ?_, ?_, fun _ => by omega⟩
      · rw [collectCandidates, if_neg hif, heq]
        rfl
      · rcases hstop with hstop | hstop
        · left
          simp [hstop]
        · right
          rw [collectCandidates, if_neg hif]
          exact hstop
      · intro j hj hjk
        cases j with
        | zero => omega
        | succ j' =>
          rcases Nat.eq_zero_or_pos j' with rfl | hj'
          · simpa [accumulateBuckets] using not_le.1 hif
          · have := hmin j' hj' (by omega)
            simpa [accumulateBuckets] using this

instance : IsTotal ((List ℕ × List ℕ) × ℕ) (fun a b => a.2 ≤ b.2) :=
  ⟨fun a b => Nat.le_total a.2 b.2⟩

instance : IsTrans ((List ℕ × List ℕ) × ℕ) (fun a b => a.2 ≤ b.2) :=
  ⟨fun _ _ _ hab hbc => le_trans hab hbc⟩

/-- Claim C3: `getSimilarVectors` visits buckets in ascending order of
Hamming distance (the sorted list is an ascending permutation of the
annotated buckets), accumulates vector ids into a deduplicated set, stops
once the set has reached `limit * 10` ids or all buckets are exhausted —
having consumed some first `k ≥ 1` buckets whose every proper nonempty
run of fewer buckets was still below the target — and the
minimum-distance (first) bucket is always fully included, even if it alone
meets the candidate target. -/
theorem candidate_accumulation (bd : List ((List ℕ × List ℕ) × ℕ))
    (limit : ℕ) (hne : bd ≠ []) :
    (sortByDistance bd).Pairwise (fun a b => a.2 ≤ b.2) ∧
    (sortByDistance bd).Perm bd ∧
    (collectCandidates (limit * 10) (sortByDistance bd) []).Nodup ∧
    (∃ k, 1 ≤ k ∧ k ≤ (sortByDistance bd).length ∧
      collectCandidates (limit * 10) (sortByDistance bd) [] =
        accumulateBuckets ((sortByDistance bd).take k) [] ∧
      (k = (sortByDistance bd).length ∨
        limit * 10 ≤
          (collectCandidates (limit * 10) (sortByDistance bd) []).length) ∧
      (∀ j, 0 < j → j < k →
        (accumulateBuckets ((sortByDistance bd).take j) []).length <
          limit * 10)) ∧
    (∀ hd ∈ (sortByDistance bd).head?, ∀ id ∈ hd.1.2,
      id ∈ collectCandidates (limit * 10) (sortByDistance bd) []) := by
  have hperm : (sortByDistance bd).Perm bd := List.perm_insertionSort _ bd
  have hsne : sortByDistance bd ≠ [] := by
    intro h0
    rw [h0] at hperm
    exact hne (hperm.symm.eq_nil)
  refine ⟨List.sorted_insertionSort _ bd, hperm,
    collectCandidates_nodup _ _ [] List.nodup_nil, ?_, ?_⟩
  · obtain ⟨k, hk, heq, hstop, hmin, hone⟩ :=
      collectCandidates_spec (limit * 10) (sortByDistance bd) []
    exact ⟨k, hone hsne, hk, heq, hstop, hmin⟩
  · intro hd hhd id hid
    obtain ⟨rest, hs⟩ : ∃ rest, sortByDistance bd = hd :: rest := by
      cases hsd : sortByDistance bd with
      | nil => exact absurd hsd hsne
      | cons b r =>
        rw [hsd] at hhd
        simp only [List.head?_cons, Option.mem_def, Option.some.injEq] at hhd
        exact ⟨r, by rw [hhd]⟩
    rw [hs]
    exact collectCandidates_head _ hd rest [] id
      ((mem_addAll [] hd.1.2 id).2 (Or.inr hid))

/-- Witness for C3: two buckets at distances 1 and 0 with `limit = 1`. -/
theorem candidate_accumulation_witness :
    ([(([0], [10, 11]), 1), (([1], [12]), 0)] :
      List ((List ℕ × List ℕ) × ℕ)) ≠ [] ∧
    ((sortByDistance [(([0], [10, 11]), 1), (([1], [12]), 0)]).Pairwise
      (fun a b => a.2 ≤ b.2) ∧
    (sortByDistance [(([0], [10, 11]), 1), (([1], [12]), 0)]).Perm
      [(([0], [10, 11]), 1), (([1], [12]), 0)] ∧
    (collectCandidates (1 * 10)
      (sortByDistance [(([0], [10, 11]), 1), (([1], [12]), 0)]) []).Nodup ∧
    (∃ k, 1 ≤ k ∧
      k ≤ (sortByDistance [(([0], [10, 11]), 1), (([1], [12]), 0)]).length ∧
      collectCandidates (1 * 10)
          (sortByDistance [(([0], [10, 11]), 1), (([1], [12]), 0)]) [] =
        accumulateBuckets
          ((sortByDistance [(([0], [10, 11]), 1), (([1], [12]), 0)]).take k)
          [] ∧
      (k = (sortByDistance [(([0], [10, 11]), 1), (([1], [12]), 0)]).length ∨
        1 * 10 ≤ (collectCandidates (1 * 10)
          (sortByDistance [(([0], [10, 11]), 1), (([1], [12]), 0)])
          []).length) ∧
      (∀ j, 0 < j → j < k →
        (accumulateBuckets
          ((sortByDistance [(([0], [10, 11]), 1), (([1], [12]), 0)]).take j)
          []).length < 1 * 10)) ∧
    (∀ hd ∈ (sortByDistance
        [(([0], [10, 11]), 1), (([1], [12]), 0)]).head?, ∀ id ∈ hd.1.2,
      id ∈ collectCandidates (1 * 10)
        (sortByDistance [(([0], [10, 11]), 1), (([1], [12]), 0)]) [])) :=
  ⟨by decide,
    candidate_accumulation [(([0], [10, 11]), 1), (([1], [12]), 0)] 1
      (by decide)⟩

/-! ### Self-recall (claim C2) -/

theorem except_error_bind {ε α β : Type _} (e : ε) (f : α → Except ε β) :
    (do let x ← (Except.error e : Except ε α); f x) = Except.error e := rfl

theorem computeHashVector_ok (vec : List ℤ) (hfs : List LSHHashFunction)
    (d : ℕ) (h : List ℕ) (hok : computeHashVector vec hfs d = .ok h) :
    vec.length = d ∧ hfs ≠ [] ∧ computeHashBits vec hfs = .ok h := by
  rw [computeHashVector] at hok
  by_cases h1 : vec.length ≠ d
  · rw [if_pos h1] at hok
    exact absurd hok (by simp)
  · rw [if_neg h1] at hok
    by_cases h2 : hfs.length = 0
    · rw [if_pos h2] at hok
      exact absurd hok (by simp)
    · rw [if_neg h2] at hok
      exact ⟨not_not.1 h1, fun hn => h2 (by rw [hn]; rfl), hok⟩

theorem computeHashBits_ok_length (vec : List ℤ) :
    ∀ (hfs : List LSHHashFunction) (h : List ℕ),
      computeHashBits vec hfs = .ok h → h.length = hfs.length := by
  intro hfs
  induction hfs with
  | nil =>
    intro h hok
    cases hok
    rfl
  | cons hf rest ih =>
    intro h hok
    cases hd : dotProduct vec hf.projectionMatrix with
    | error e =>
      rw [computeHashBits, hd, except_error_bind] at hok
      exact absurd hok (by simp)
    | ok d =>
      cases hb : computeHashBits vec rest with
      | error e =>
        simp only [computeHashBits, hd, except_ok_bind, hb,
          except_error_bind] at hok
        exact absurd hok (by simp)
      | ok bits =>
        simp only [computeHashBits, hd, except_ok_bind, hb,
          except_ok_bind] at hok
        cases hok
        simp [ih bits hb]

theorem zipWith_ne_self_sum (q : List ℕ) :
    (List.zipWith (fun a b => if a ≠ b then (1 : ℕ) else 0) q q).sum = 0 := by
  induction q with
  | nil => rfl
  | cons a r ih => simp [ih]

theorem hammingDistance_self (q : List ℕ) : hammingDistance q q = .ok 0 := by
  rw [hammingDistance, if_neg fun hne => hne rfl, zipWith_ne_self_sum]

theorem zipWith_ne_sum_zero :
    ∀ (q h : List ℕ), q.length = h.length →
      (List.zipWith (fun a b => if a ≠ b then (1 : ℕ) else 0) q h).sum = 0 →
      q = h := by
  intro q
  induction q with
  | nil =>
    intro h hlen _
    rw [List.eq_nil_of_length_eq_zero hlen.symm]
  | cons a r ih =>
    intro h hlen hsum
    cases h with
    | nil => exact absurd hlen (by simp)
    | cons b hr =>
      simp only [List.zipWith_cons_cons, List.sum_cons] at hsum
      by_cases hab : a = b
      · subst hab
        have hz : (if a ≠ a then (1 : ℕ) else 0) = 0 := by simp
        rw [hz] at hsum
        have hsum2 :
            (List.zipWith (fun a b => if a ≠ b then (1 : ℕ) else 0) r hr).sum
              = 0 := by omega
        rw [ih hr (by simpa using hlen) hsum2]
      · rw [if_pos hab] at hsum
        omega

theorem hammingDistance_zero (q h : List ℕ)
    (hk : hammingDistance q h = .ok 0) : q = h := by
  rw [hammingDistance] at hk
  by_cases hlen : q.length ≠ h.length
  · rw [if_pos hlen] at hk
    exact absurd hk (by simp)
  · rw [if_neg hlen] at hk
    exact zipWith_ne_sum_zero q h (not_not.1 hlen) (Except.ok.inj hk)

theorem computeBucketDistances_ok (q : List ℕ) :
    ∀ (bs : List (List ℕ × List ℕ)), (∀ g ∈ bs, g.1.length = q.length) →
      ∃ bds, computeBucketDistances q bs = .ok bds ∧
        bds.map (fun p => p.1) = bs ∧
        ∀ p ∈ bds, hammingDistance q p.1.1 = .ok p.2 := by
  intro bs
  induction bs with
  | nil =>
    intro _
    exact ⟨[], rfl, rfl, by simp⟩
  | cons b rest ih =>
    intro hlen
    obtain ⟨d, hd⟩ : ∃ d, hammingDistance q b.1 = .ok d := by
      rw [hammingDistance,
        if_neg fun hne => hne (hlen b (List.mem_cons_self b rest)).symm]
      exact ⟨_, rfl⟩
    obtain ⟨bds, hbds, hmap, hall⟩ :=
      ih fun g hg => hlen g (List.mem_cons_of_mem b hg)
    refine ⟨(b, d) :: bds, ?_, ?_, ?_⟩
    · simp only [computeBucketDistances, hd, except_ok_bind, hbds,
        except_ok_bind]
    · simp [hmap]
    · intro p hp
      rcases List.mem_cons.1 hp with rfl | hp
      · exact hd
      · exact hall p hp

theorem groupStep_keys (acc : List (List ℕ × List ℕ)) (row : BucketRow) :
    (groupStep acc row).map (fun g => g.1) =
      if acc.any fun g => g.1 == row.bucketHash then acc.map fun g => g.1
      else (acc.map fun g => g.1) ++ [row.bucketHash] := by
  rw [groupStep]
  by_cases ha : acc.any fun g => g.1 == row.bucketHash
  · rw [if_pos ha, if_pos ha, List.map_map]
    refine List.map_congr_left ?_
    intro g _
    by_cases hg : g.1 = row.bucketHash <;> simp [hg]
  · rw [if_neg ha, if_neg ha, List.map_append]
    rfl

theorem foldl_groupStep_keys_nodup :
    ∀ (rows : List BucketRow) (acc : List (List ℕ × List ℕ)),
      (acc.map fun g => g.1).Nodup →
      ((rows.foldl groupStep acc).map fun g => g.1).Nodup := by
  intro rows
  induction rows with
  | nil => exact fun _ h => h
  | cons r rest ih =>
    intro acc h
    rw [List.foldl_cons]
    refine ih _ ?_
    rw [groupStep_keys]
    by_cases ha : acc.any fun g => g.1 == r.bucketHash
    · rw [if_pos ha]
      exact h
    · rw [if_neg ha]
      have hnot : r.bucketHash ∉ acc.map fun g => g.1 := by
        intro hmem
        obtain ⟨g, hg, hkey⟩ := List.mem_map.1 hmem
        exact ha (List.any_eq_true.2 ⟨g, hg, by simp [hkey]⟩)
      simp [List.nodup_append, h, hnot]

theorem exists_group_preserved :
    ∀ (rows : List BucketRow) (acc : List (List ℕ × List ℕ))
      (key : List ℕ) (tid : ℕ),
      (∃ g ∈ acc, g.1 = key ∧ tid ∈ g.2) →
      ∃ g ∈ rows.foldl groupStep acc, g.1 = key ∧ tid ∈ g.2 := by
  intro rows
  induction rows with
  | nil => exact fun _ _ _ h => h
  | cons r rest ih =>
    rintro acc key tid ⟨g, hg, hkey, htid⟩
    rw [List.foldl_cons]
    refine ih _ key tid ?_
    rw [groupStep]
    by_cases ha : acc.any fun g => g.1 == r.bucketHash
    · rw [if_pos ha]
      refine ⟨if g.1 = r.bucketHash then (g.1, g.2 ++ [r.vectorId]) else g,
        List.mem_map_of_mem _ hg, ?_, ?_⟩
      · have h1 :
            (if g.1 = r.bucketHash then (g.1, g.2 ++ [r.vectorId]) else g).1
              = g.1 := by
          by_cases hgr : g.1 = r.bucketHash <;> simp [hgr]
        rw [h1]
        exact hkey
      · by_cases hgr : g.1 = r.bucketHash <;> simp [hgr, htid]
    · rw [if_neg ha]
      exact ⟨g, List.mem_append_left _ hg, hkey, htid⟩

theorem exists_group_of_mem :
    ∀ (rows : List BucketRow) (acc : List (List ℕ × List ℕ))
      (row : BucketRow), row ∈ rows →
      ∃ g ∈ rows.foldl groupStep acc, g.1 = row.bucketHash ∧
        row.vectorId ∈ g.2 := by
  intro rows
  induction rows with
  | nil =>
    intro acc row h
    exact absurd h (List.not_mem_nil row)
  | cons r rest ih =>
    intro acc row hrow
    rw [List.foldl_cons]
    rcases List.mem_cons.1 hrow with rfl | hmem
    · refine exists_group_preserved rest _ row.bucketHash row.vectorId ?_
      rw [groupStep]
      by_cases ha : acc.any fun g => g.1 == row.bucketHash
      · obtain ⟨g, hg, hgkey⟩ := List.any_eq_true.1 ha
        have hkey : g.1 = row.bucketHash := by simpa using hgkey
        rw [if_pos ha]
        refine ⟨(g.1, g.2 ++ [row.vectorId]), ?_, hkey, by simp⟩
        have himg :
            (if g.1 = row.bucketHash then (g.1, g.2 ++ [row.vectorId]) else g)
              = (g.1, g.2 ++ [row.vectorId]) := if_pos hkey
        rw [← himg]
        exact List.mem_map_of_mem _ hg
      · rw [if_neg ha]
        exact ⟨(row.bucketHash, [row.vectorId]),
          List.mem_append_right _ (by simp), rfl, by simp⟩
    · exact ih _ row hmem

theorem group_key_origin :
    ∀ (rows : List BucketRow) (acc : List (List ℕ × List ℕ))
      (g : List ℕ × List ℕ), g ∈ rows.foldl groupStep acc →
      g.1 ∈ acc.map (fun x => x.1) ∨ ∃ row ∈ rows, g.1 = row.bucketHash := by
  intro rows
  induction rows with
  | nil =>
    intro acc g h
    exact Or.inl (List.mem_map_of_mem _ h)
  | cons r rest ih =>
    intro acc g h
    rw [List.foldl_cons] at h
    rcases ih _ g h with hacc | ⟨row, hrow, hkey⟩
    · rw [groupStep_keys] at hacc
      by_cases ha : acc.any fun x => x.1 == r.bucketHash
      · rw [if_pos ha] at hacc
        exact Or.inl hacc
      · rw [if_neg ha] at hacc
        rcases List.mem_append.1 hacc with h1 | h2
        · exact Or.inl h1
        · exact Or.inr ⟨r, List.mem_cons_self r rest, List.mem_singleton.1 h2⟩
    · exact Or.inr ⟨row, List.mem_cons_of_mem r hrow, hkey⟩

/-- Claim C2: self-recall round-trip.  After a successful
`generateVectorIndex` over the stored vectors, querying
`getSimilarVectors` with a vector identical to a stored one returns that
vector among the candidates, for any limit. -/
theorem selfRecall (s s' : Store) (dims cid : ℕ) (proj : ℕ → List ℚ)
    (v : StoredVector) (limit : ℕ)
    (hbuild : generateVectorIndex s dims proj cid = (none, s'))
    (hv : v ∈ s.vectors) :
    ∃ res, getSimilarVectors s' v.vec limit = .ok res ∧ v ∈ res := by
  have hne : s.vectors ≠ [] := fun h0 => by
    rw [h0] at hv
    exact List.not_mem_nil v hv
  rw [generateVectorIndex_unfold s dims proj cid hne] at hbuild
  set s3 : Store :=
    ⟨s.vectors,
      [⟨cid, s.vectors.length, dims, numHashFunctions s.vectors.length⟩],
      (createHashFunctions s.vectors.length dims proj).2.map
        (fun p => ⟨cid, p.1, p.2⟩), []⟩ with hs3
  set stored := getLSHHashFunctions s3 cid with hstoreddef
  obtain ⟨hvv, hcc, hhh⟩ :=
    populateBuckets_preserves cid stored dims s.vectors s3 none s' hbuild
  have hsf : getLSHHashFunctions s' cid = stored := by
    rw [hstoreddef, getLSHHashFunctions, getLSHHashFunctions, hhh]
  obtain ⟨h, hok, hrowmem⟩ :=
    populateBuckets_ok_mem cid stored dims s.vectors s3 s' hbuild v hv
  have hrows := populateBuckets_rows cid stored dims s.vectors s3 none s'
    hbuild
  have hs3b : s3.buckets = [] := rfl
  have hcfg : getLSHConfig s' = some
      ⟨cid, s.vectors.length, dims, numHashFunctions s.vectors.length⟩ := by
    rw [getLSHConfig, hcc]
    rfl
  have hfilter : s'.buckets.filter (fun r => r.configId == cid) =
      s'.buckets := by
    rw [List.filter_eq_self]
    intro row hrow
    rcases hrows row hrow with h0 | ⟨hc, -⟩
    · rw [hs3b] at h0
      exact absurd h0 (List.not_mem_nil row)
    · simp [hc]
  have hab : getAllLSHBuckets s' cid =
      List.foldl groupStep [] s'.buckets := by
    rw [getAllLSHBuckets, hfilter]
    rfl
  have hglen : ∀ g ∈ getAllLSHBuckets s' cid, g.1.length = h.length := by
    intro g hg
    rw [hab] at hg
    rcases group_key_origin s'.buckets [] g hg with h0 | ⟨row, hrow, hkey⟩
    · exact absurd h0 (by simp)
    · rcases hrows row hrow with h0 | ⟨-, u, -, -, hu⟩
      · rw [hs3b] at h0
        exact absurd h0 (List.not_mem_nil row)
      · obtain ⟨-, -, hbits⟩ := computeHashVector_ok _ _ _ _ hu
        obtain ⟨-, -, hbitsv⟩ := computeHashVector_ok _ _ _ _ hok
        rw [hkey, computeHashBits_ok_length _ _ _ hbits,
          computeHashBits_ok_length _ _ _ hbitsv]
  obtain ⟨bds, hbds, hmapfst, hall⟩ :=
    computeBucketDistances_ok h (getAllLSHBuckets s' cid) hglen
  obtain ⟨gv, hgvmem0, hgvkey, hgvid⟩ :=
    exists_group_of_mem s'.buckets [] ⟨cid, h, v.id⟩ hrowmem
  have hgvmem : gv ∈ getAllLSHBuckets s' cid := by
    rw [hab]
    exact hgvmem0
  have hgvbds : ∃ pgv ∈ bds, pgv.1 = gv := by
    have : gv ∈ bds.map (fun p => p.1) := by
      rw [hmapfst]
      exact hgvmem
    obtain ⟨pgv, hpgv, hfst⟩ := List.mem_map.1 this
    exact ⟨pgv, hpgv, hfst⟩
  obtain ⟨pgv, hpgv, hfst⟩ := hgvbds
  have hpgvdist : pgv.2 = 0 := by
    have hthis := hall pgv hpgv
    have hq : pgv.1.1 = h := by
      rw [hfst]
      exact hgvkey
    rw [hq, hammingDistance_self] at hthis
    exact (Except.ok.inj hthis).symm
  have hpgv_sorted : pgv ∈ sortByDistance bds := by
    rw [sortByDistance, List.mem_insertionSort]
    exact hpgv
  cases hsplit : sortByDistance bds with
  | nil =>
    rw [hsplit] at hpgv_sorted
    exact absurd hpgv_sorted (List.not_mem_nil pgv)
  | cons p0 rest =>
    have hpair : (sortByDistance bds).Pairwise (fun a b => a.2 ≤ b.2) :=
      List.sorted_insertionSort _ bds
    rw [hsplit] at hpair
    have hp0min : ∀ x ∈ rest, p0.2 ≤ x.2 := (List.pairwise_cons.1 hpair).1
    have hp0dist : p0.2 = 0 := by
      rw [hsplit] at hpgv_sorted
      rcases List.mem_cons.1 hpgv_sorted with rfl | hmem
      · exact hpgvdist
      · have := hp0min pgv hmem
        omega
    have hp0bds : p0 ∈ bds := by
      have : p0 ∈ sortByDistance bds := by
        rw [hsplit]
        exact List.mem_cons_self p0 rest
      rw [sortByDistance, List.mem_insertionSort] at this
      exact this
    have hp0key : p0.1.1 = h := by
      have hthis := hall p0 hp0bds
      rw [hp0dist] at hthis
      exact (hammingDistance_zero h p0.1.1 hthis).symm
    have hp0grp : p0.1 ∈ getAllLSHBuckets s' cid := by
      rw [← hmapfst]
      exact List.mem_map_of_mem _ hp0bds
    have hkeysnd :
        ((List.foldl groupStep [] s'.buckets).map (fun g => g.1)).Nodup :=
      foldl_groupStep_keys_nodup s'.buckets [] (by simp)
    have hgveq : gv = p0.1 := by
      refine List.inj_on_of_nodup_map hkeysnd hgvmem0 ?_ ?_
      · rw [← hab]
        exact hp0grp
      · rw [hgvkey, hp0key]
    have hvidmem : v.id ∈ collectCandidates (limit * 10) (p0 :: rest) [] :=
      collectCandidates_head _ p0 rest [] v.id
        ((mem_addAll [] p0.1.2 v.id).2 (Or.inr (by rw [← hgveq]; exact hgvid)))
    refine ⟨s'.vectors.filter
      (fun u => (collectCandidates (limit * 10) (p0 :: rest) []).contains
        u.id), ?_, ?_⟩
    · rw [getSimilarVectors, hcfg]
      dsimp only
      rw [hsf]
      rw [hok, except_ok_bind, hbds, except_ok_bind, hsplit]
    · refine List.mem_filter.2 ⟨by rw [hvv]; exact hv, ?_⟩
      exact List.elem_iff.2 hvidmem

/-- `selfRecall` instantiated at a concrete two-vector store: the index is
built over vectors `[1]` and `[-1]`, and querying with `[1]` recovers the
stored vector of id 0. -/
theorem selfRecall_witness :
    ∃ res,
      getSimilarVectors
        ⟨[⟨0, [1]⟩, ⟨1, [-1]⟩], [⟨7, 2, 1, 1⟩], [⟨7, 0, [1]⟩],
          [⟨7, [1], 0⟩, ⟨7, [0], 1⟩]⟩
        (⟨0, [1]⟩ : StoredVector).vec 5 = .ok res ∧
      (⟨0, [1]⟩ : StoredVector) ∈ res :=
  selfRecall ⟨[⟨0, [1]⟩, ⟨1, [-1]⟩], [], [], []⟩
    ⟨[⟨0, [1]⟩, ⟨1, [-1]⟩], [⟨7, 2, 1, 1⟩], [⟨7, 0, [1]⟩],
      [⟨7, [1], 0⟩, ⟨7, [0], 1⟩]⟩
    1 7 (fun _ => [1]) ⟨0, [1]⟩ 5
    (by norm_num [generateVectorIndex, clearLSHTables, createHashFunctions,
      numHashFunctions, ceilLog2Go, getLSHHashFunctions, populateBuckets,
      computeHashVector, computeHashBits, dotProduct, List.insertionSort,
      List.orderedInsert, List.range_succ, except_ok_bind])
    (List.Mem.head _)

end Tezcat
